import Mathlib

/-!
Verification of the tennis Elo rating scripts (src/app.py and src/app1.py).

The two Python scripts are embedded shallowly:

* Python float arithmetic is modelled by real arithmetic; the exponential
  10 ** x of expected_score becomes Real.rpow.
* The process-wide mutable dictionary elo_ratings is threaded explicitly:
  a Python dict is an insertion-ordered association list, and functions that
  mutate it return the updated store.
* app.py keys ratings by player only (FlatStore); app1.py keys them by player
  and surface (EloStore).  Fetching CSVs over the network is outside the

  embedded core: load_data is modelled from the point where the raw frames
  have been fetched and restricted to the four relevant columns.
-/

namespace TennisElo

/-- Baseline rating; BASE_ELO = 1500 in both scripts. -/
def BASE_ELO : ℝ := 1500

/-- K-factor; K = 32 in both scripts. -/
def K : ℝ := 32

/-- Inner per-surface dictionary of app1.py, an insertion-ordered association list. -/
abbrev SurfaceMap := List (String × ℝ)

/-- Rating store of app1.py: elo_ratings maps a player name to a per-surface map. -/
abbrev EloStore := List (String × SurfaceMap)

/-- Flat rating store of app.py: elo_ratings maps a player name to a rating. -/
abbrev FlatStore := List (String × ℝ)

/-- Python dict lookup d.get(k) / k in d, modelled on the association list. -/
def lookupD {β : Type} : List (String × β) → String → Option β
  | [], _ => none
  | (k, v) :: rest, key => if key = k then some v else lookupD rest key

/-- Python dict assignment d[k] = v: overwrite in place when the key exists,
otherwise append at the end (Python dicts preserve insertion order). -/
def dictInsert {β : Type} : List (String × β) → String → β → List (String × β)
  | [], key, v => [(key, v)]
  | (k, w) :: rest, key, v =>
      if key = k then (k, v) :: rest else (k, w) :: dictInsert rest key v

/-- get_elo of app.py (line 35): elo_ratings.get(player, BASE_ELO).  The Python
function performs no assignment, so it is a pure function of the store. -/
def get_elo_flat (store : FlatStore) (player : String) : ℝ :=
  (lookupD store player).getD BASE_ELO

/-- expected_score of both scripts: 1 / (1 + 10 ** ((Rb - Ra) / 400)). -/
noncomputable def expected_score (Ra Rb : ℝ) : ℝ :=
  1 / (1 + (10 : ℝ) ^ ((Rb - Ra) / 400))

/-- get_elo of app1.py (lines 47-50): when the player key is absent the Python code
first executes elo_ratings[player] = \x7b\x7d, mutating the global dict; it then
returns elo_ratings[player].get(surface, BASE_ELO).  The model returns the read
value together with the possibly-enlarged store. -/
def get_elo (store : EloStore) (player surface : String) : ℝ × EloStore :=
  let store2 := if (lookupD store player).isSome then store else dictInsert store player []
  ((lookupD ((lookupD store2 player).getD []) surface).getD BASE_ELO, store2)

/-- Python statement elo_ratings[player][surface] = v of app1.py.  On a missing
player key Python would raise KeyError; inside update_elo the preceding get_elo
always inserts the key first, so that branch is unreachable there and the model
returns the store unchanged. -/
def setRating : EloStore → String → String → ℝ → EloStore
  | [], _, _, _ => []
  | (p, inner) :: rest, player, surface, v =>
      if player = p then (p, dictInsert inner surface v) :: rest
      else (p, inner) :: setRating rest player surface v

/-- update_elo of app1.py (lines 55-62), threading the global store explicitly. -/
noncomputable def update_elo (store : EloStore) (winner loser surface : String) : EloStore :=
  let p1 := get_elo store winner surface
  let p2 := get_elo p1.2 loser surface
  let Ra := p1.1
  let Rb := p2.1
  let Ea := expected_score Ra Rb
  let RaNew := Ra + K * (1 - Ea)
  let RbNew := Rb - K * (1 - Ea)
  setRating (setRating p2.2 winner surface RaNew) loser surface RbNew

/-- Pure observation of one cell of the store: the rating the scripts read for
(player, surface) with the lazy baseline default, as in line 118 of app1.py:
elo_ratings[player].get(surface, BASE_ELO). -/
def ratingOf (store : EloStore) (player surface : String) : ℝ :=
  (lookupD ((lookupD store player).getD []) surface).getD BASE_ELO

/-- One normalized match record as consumed by the replay loop of app1.py;
tourney_date is used only to sort the frame before the loop. -/
structure MatchRecord where
  winner : String
  loser : String
  surface : String
  deriving DecidableEq

/-- Replay loop of app1.py (lines 86-87): update_elo once per row, in order. -/
noncomputable def replay (store : EloStore) (records : List MatchRecord) : EloStore :=
  records.foldl (fun s r => update_elo s r.winner r.loser r.surface) store

/-- One raw input row restricted to the four selected columns; a missing field
(NaN in the frame) is modelled as none. -/
structure Row where
  tourney_date : Option String
  surface : Option String
  winner_name : Option String
  loser_name : Option String
  deriving DecidableEq

/-- pandas dropna() on the four selected columns keeps a row iff no field is NaN. -/
def rowComplete (r : Row) : Bool :=
  r.tourney_date.isSome && r.surface.isSome && r.winner_name.isSome && r.loser_name.isSome

/-- Lowercasing of the surface column (line 36 of app1.py); .str.lower() maps NaN
to NaN, i.e. acts under Option.map. -/
def lowerSurface (r : Row) : Row :=
  { r with surface := r.surface.map String.toLower }

/-- load_data of app1.py after the external fetches: hist is the concatenation of
the yearly ATP and WTA frames restricted to the four columns, live the sheet rows
restricted to the four columns (empty when that fetch fails).  dropna() is applied
to hist only, before the live rows are appended; then surface is lowercased. -/
def load_data (hist live : List Row) : List Row :=
  ((hist.filter rowComplete) ++ live).map lowerSurface

/-- load_data of app.py after the fetch: dropna restricted to the winner_name and
loser_name columns; date and surface are not checked, surface is not lowercased. -/
def load_data_flat (hist : List Row) : List Row :=
  hist.filter (fun r => r.winner_name.isSome && r.loser_name.isSome)

/-- Outcome displayed by the prediction section of app1.py: the warning asking for
two different players, or a success banner carrying the probability. -/
inductive PredictionOutcome where
  | warning : PredictionOutcome
  | success : ℝ → PredictionOutcome

/-- Prediction section of app1.py (lines 104-110), threading the store through the
two get_elo calls (which may insert empty per-surface dicts). -/
noncomputable def predictionUI (store : EloStore) (player1 player2 surface : String) :
    PredictionOutcome × EloStore :=
  if player1 = player2 then (PredictionOutcome.warning, store)
  else
    let p1 := get_elo store player1 surface
    let p2 := get_elo p1.2 player2 surface
    (PredictionOutcome.success (expected_score p1.1 p2.1), p2.2)

/-- Leaderboard rows of app1.py (lines 116-119): one pair per player key of the
store, reading the selected surface with baseline default (a pure read). -/
def top_players (store : EloStore) (surface : String) : List (String × ℝ) :=
  store.map (fun e => (e.1, (lookupD e.2 surface).getD BASE_ELO))

/-- Leaderboard of app1.py (lines 121-122): sort_values(ascending=False) then
head(limit); in the script limit = 200. -/
noncomputable def rank (store : EloStore) (surface : String) (limit : Nat) :
    List (String × ℝ) :=
  ((top_players store surface).mergeSort (fun a b => decide (b.2 ≤ a.2))).take limit

/-! Basic lemmas about the dictionary model. -/

theorem lookupD_dictInsert_self {β : Type} (l : List (String × β)) (k : String) (v : β) :
    lookupD (dictInsert l k v) k = some v := by
  induction l with
  | nil => simp [dictInsert, lookupD]
  | cons hd tl ih =>
      obtain ⟨k2, w⟩ := hd
      by_cases h : k = k2
      · simp [dictInsert, lookupD, h]
      · simp [dictInsert, lookupD, h, ih]

theorem lookupD_dictInsert_ne {β : Type} (l : List (String × β)) (k key : String) (v : β)
    (h : key ≠ k) : lookupD (dictInsert l k v) key = lookupD l key := by
  induction l with
  | nil => simp [dictInsert, lookupD, h]
  | cons hd tl ih =>
      obtain ⟨k2, w⟩ := hd
      by_cases h2 : k = k2
      · subst h2
        simp [dictInsert, lookupD, h]
      · by_cases h3 : key = k2
        · simp [dictInsert, lookupD, h2, h3]
        · simp [dictInsert, lookupD, h2, h3, ih]

theorem lookupD_setRating (s : EloStore) (p q : String) (v : ℝ) :
    lookupD (setRating s p q v) p = (lookupD s p).map (fun inner => dictInsert inner q v) := by
  induction s with
  | nil => simp [setRating, lookupD]
  | cons hd tl ih =>
      obtain ⟨k, inner⟩ := hd
      by_cases h : p = k
      · simp [setRating, lookupD, h]
      · simp [setRating, lookupD, h, ih]

theorem lookupD_setRating_ne (s : EloStore) (p q : String) (v : ℝ) (c : String)
    (h : c ≠ p) : lookupD (setRating s p q v) c = lookupD s c := by
  induction s with
  | nil => simp [setRating]
  | cons hd tl ih =>
      obtain ⟨k, inner⟩ := hd
      by_cases h2 : p = k
      · subst h2
        simp [setRating, lookupD, h]
      · by_cases h3 : c = k
        · simp [setRating, lookupD, h2, h3]
        · simp [setRating, lookupD, h2, h3, ih]

theorem lookupD_setRating_isSome (s : EloStore) (p q : String) (v : ℝ) (c : String) :
    (lookupD (setRating s p q v) c).isSome = (lookupD s c).isSome := by
  by_cases h : c = p
  · subst h
    rw [lookupD_setRating]
    cases lookupD s c <;> simp
  · rw [lookupD_setRating_ne s p q v c h]

theorem ratingOf_setRating_self (s : EloStore) (p q : String) (v : ℝ)
    (h : (lookupD s p).isSome) : ratingOf (setRating s p q v) p q = v := by
  obtain ⟨inner, hinner⟩ := Option.isSome_iff_exists.mp h
  unfold ratingOf
  rw [lookupD_setRating, hinner]
  simp [lookupD_dictInsert_self]

theorem ratingOf_setRating_ne (s : EloStore) (p q : String) (v : ℝ) (c r : String)
    (h : (c, r) ≠ (p, q)) : ratingOf (setRating s p q v) c r = ratingOf s c r := by
  by_cases hc : c = p
  · subst hc
    have hr : r ≠ q := by
      intro hrq
      exact h (by rw [hrq])
    unfold ratingOf
    rw [lookupD_setRating]
    cases hcase : lookupD s c with
    | none => simp
    | some inner => simp [lookupD_dictInsert_ne inner q r v hr]
  · unfold ratingOf
    rw [lookupD_setRating_ne s p q v c hc]

/-! Lemmas about get_elo of app1.py. -/

theorem get_elo_fst (s : EloStore) (p q : String) : (get_elo s p q).1 = ratingOf s p q := by
  unfold get_elo ratingOf
  cases hcase : lookupD s p with
  | none => simp [hcase, lookupD_dictInsert_self, lookupD]
  | some inner => simp [hcase]

theorem ratingOf_get_elo_snd (s : EloStore) (p q c r : String) :
    ratingOf (get_elo s p q).2 c r = ratingOf s c r := by
  unfold get_elo
  cases hcase : lookupD s p with
  | some inner => simp [hcase]
  | none =>
      simp only [hcase, Option.isSome_none, Bool.false_eq_true, if_false]
      by_cases hc : c = p
      · subst hc
        unfold ratingOf
        simp [lookupD_dictInsert_self, hcase, lookupD]
      · unfold ratingOf
        rw [lookupD_dictInsert_ne s p c [] hc]

theorem lookupD_get_elo_snd_self (s : EloStore) (p q : String) :
    (lookupD (get_elo s p q).2 p).isSome := by
  unfold get_elo
  cases hcase : lookupD s p with
  | some inner => simp [hcase]
  | none => simp [hcase, lookupD_dictInsert_self]

theorem lookupD_get_elo_snd_isSome (s : EloStore) (p q c : String)
    (h : (lookupD s c).isSome) : (lookupD (get_elo s p q).2 c).isSome := by
  unfold get_elo
  cases hcase : lookupD s p with
  | some inner => simp [hcase, h]
  | none =>
      by_cases hc : c = p
      · subst hc
        rw [hcase] at h
        simp at h
      · simp [hcase, lookupD_dictInsert_ne s p c [] hc, h]

/-! Characterization of one update step of app1.py. -/

theorem update_elo_winner (s : EloStore) (w l q : String) (h : w ≠ l) :
    ratingOf (update_elo s w l q) w q
      = ratingOf s w q + K * (1 - expected_score (ratingOf s w q) (ratingOf s l q)) := by
  unfold update_elo
  have hpair : (w, q) ≠ (l, q) := by
    intro hcontra
    exact h (congrArg Prod.fst hcontra)
  rw [ratingOf_setRating_ne _ _ _ _ _ _ hpair]
  have hsome : (lookupD (get_elo (get_elo s w q).2 l q).2 w).isSome :=
    lookupD_get_elo_snd_isSome _ _ _ _ (lookupD_get_elo_snd_self s w q)
  rw [ratingOf_setRating_self _ _ _ _ hsome]
  rw [get_elo_fst, get_elo_fst, ratingOf_get_elo_snd]

theorem update_elo_loser (s : EloStore) (w l q : String) :
    ratingOf (update_elo s w l q) l q
      = ratingOf s l q - K * (1 - expected_score (ratingOf s w q) (ratingOf s l q)) := by
  unfold update_elo
  have hsome : (lookupD (setRating (get_elo (get_elo s w q).2 l q).2 w q
      ((get_elo s w q).1 + K * (1 - expected_score (get_elo s w q).1
        (get_elo (get_elo s w q).2 l q).1))) l).isSome := by
    rw [lookupD_setRating_isSome]
    exact lookupD_get_elo_snd_self _ _ _
  rw [ratingOf_setRating_self _ _ _ _ hsome]
  rw [get_elo_fst, get_elo_fst, ratingOf_get_elo_snd]

theorem update_elo_frame (s : EloStore) (w l q c r : String)
    (h1 : (c, r) ≠ (w, q)) (h2 : (c, r) ≠ (l, q)) :
    ratingOf (update_elo s w l q) c r = ratingOf s c r := by
  unfold update_elo
  rw [ratingOf_setRating_ne _ _ _ _ _ _ h2, ratingOf_setRating_ne _ _ _ _ _ _ h1,
    ratingOf_get_elo_snd, ratingOf_get_elo_snd]

/-! Facts about the logistic expected score. -/

theorem rpow_term_pos (Ra Rb : ℝ) : (0:ℝ) < (10:ℝ) ^ ((Rb - Ra) / 400) :=
  Real.rpow_pos_of_pos (by norm_num) _

theorem expected_score_pos (Ra Rb : ℝ) : 0 < expected_score Ra Rb := by
  unfold expected_score
  have := rpow_term_pos Ra Rb
  positivity

theorem expected_score_lt_one (Ra Rb : ℝ) : expected_score Ra Rb < 1 := by
  unfold expected_score
  have h := rpow_term_pos Ra Rb
  rw [div_lt_one (by linarith)]
  linarith

theorem expected_score_add_reverse (Ra Rb : ℝ) :
    expected_score Ra Rb + expected_score Rb Ra = 1 := by
  unfold expected_score
  have h : (Ra - Rb) / 400 = -((Rb - Ra) / 400) := by ring
  rw [h, Real.rpow_neg (by norm_num : (0:ℝ) ≤ 10)]
  have hp := rpow_term_pos Ra Rb
  have h1 : (1:ℝ) + (10:ℝ) ^ ((Rb - Ra) / 400) ≠ 0 := by linarith
  field_simp
  ring

theorem expected_score_self (R : ℝ) : expected_score R R = 1 / 2 := by
  unfold expected_score
  rw [sub_self, zero_div, Real.rpow_zero]
  norm_num

theorem expected_score_lt_half (Ra Rb : ℝ) (h : Ra < Rb) :
    expected_score Ra Rb < 1 / 2 := by
  unfold expected_score
  have hgt : (1:ℝ) < (10:ℝ) ^ ((Rb - Ra) / 400) := by
    rw [Real.one_lt_rpow_iff_of_pos (by norm_num)]
    left
    constructor
    · norm_num
    · have : 0 < Rb - Ra := by linarith
      positivity
  rw [div_lt_div_iff₀ (by linarith) (by norm_num)]
  linarith

theorem ratingOf_nil (c r : String) : ratingOf ([] : EloStore) c r = BASE_ELO := rfl

theorem update_elo_fresh (A B p : String) (h : A ≠ B) :
    ratingOf (update_elo [] A B p) A p = 1516 ∧ ratingOf (update_elo [] A B p) B p = 1484 := by
  constructor
  · rw [update_elo_winner [] A B p h, ratingOf_nil, ratingOf_nil, expected_score_self]
    norm_num [BASE_ELO, K]
  · rw [update_elo_loser [] A B p, ratingOf_nil, ratingOf_nil, expected_score_self]
    norm_num [BASE_ELO, K]

/-- C2: replaying the single record (winner A, loser B, partition p), with A distinct
from B, on a fresh store yields rating(A,p) = 1516 and rating(B,p) = 1484 exactly. -/
theorem C2_single_record (A B p : String) (h : A ≠ B) :
    ratingOf (replay [] [⟨A, B, p⟩]) A p = 1516
      ∧ ratingOf (replay [] [⟨A, B, p⟩]) B p = 1484 := by
  have hrep : replay [] [⟨A, B, p⟩] = update_elo [] A B p := rfl
  rw [hrep]
  exact update_elo_fresh A B p h

/-- C2 witness at A = "A", B = "B", p = "clay". -/
theorem C2_single_record_witness :
    "A" ≠ "B"
      ∧ ratingOf (replay [] [⟨"A", "B", "clay"⟩]) "A" "clay" = 1516
      ∧ ratingOf (replay [] [⟨"A", "B", "clay"⟩]) "B" "clay" = 1484 :=
  ⟨by decide, C2_single_record "A" "B" "clay" (by decide)⟩

/-- C3: update_elo for a record in partition q changes at most the two cells
(winner, q) and (loser, q): every other (competitor, partition) cell reads the same
rating after the update as before, for every starting store. -/
theorem C3_update_frame (s : EloStore) (w l q c p : String)
    (h1 : (c, p) ≠ (w, q)) (h2 : (c, p) ≠ (l, q)) :
    ratingOf (update_elo s w l q) c p = ratingOf s c p :=
  update_elo_frame s w l q c p h1 h2

/-- C3 witness: an update on the hard surface leaves the clay rating of the winner
untouched. -/
theorem C3_update_frame_witness :
    (("A", "clay") ≠ ("A", "hard"))
      ∧ (("A", "clay") ≠ ("B", "hard"))
      ∧ ratingOf (update_elo [("A", [("clay", (1600 : ℝ))])] "A" "B" "hard") "A" "clay"
          = ratingOf [("A", [("clay", (1600 : ℝ))])] "A" "clay" :=
  ⟨by decide, by decide,
    C3_update_frame [("A", [("clay", (1600 : ℝ))])] "A" "B" "hard" "A" "clay"
      (by decide) (by decide)⟩

/-- C4: for all ratings Ra and Rb, expected_score Ra Rb + expected_score Rb Ra = 1
exactly; expected_score R R = 1 / 2 for every R; and the result always lies
strictly between 0 and 1. -/
theorem C4_predict_logistic (Ra Rb : ℝ) :
    expected_score Ra Rb + expected_score Rb Ra = 1
      ∧ expected_score Ra Ra = 1 / 2
      ∧ 0 < expected_score Ra Rb ∧ expected_score Ra Rb < 1 :=
  ⟨expected_score_add_reverse Ra Rb, expected_score_self Ra,
    expected_score_pos Ra Rb, expected_score_lt_one Ra Rb⟩

/-- C9: points conservation: with distinct winner and loser, the post-update ratings
of the two involved cells sum exactly to the pre-update ratings. -/
theorem C9_conservation (s : EloStore) (w l q : String) (h : w ≠ l) :
    ratingOf (update_elo s w l q) w q + ratingOf (update_elo s w l q) l q
      = ratingOf s w q + ratingOf s l q := by
  rw [update_elo_winner s w l q h, update_elo_loser s w l q]
  ring

/-- C9 witness on the empty store. -/
theorem C9_conservation_witness :
    "A" ≠ "B"
      ∧ ratingOf (update_elo [] "A" "B" "clay") "A" "clay"
          + ratingOf (update_elo [] "A" "B" "clay") "B" "clay"
        = ratingOf ([] : EloStore) "A" "clay" + ratingOf ([] : EloStore) "B" "clay" :=
  ⟨by decide, C9_conservation [] "A" "B" "clay" (by decide)⟩

/-- C10: each update moves the winner up and the loser down by the same amount
K * (1 - Ea), which lies strictly between 0 and K = 32, for every starting store
and all pre-update ratings. -/
theorem C10_update_delta (s : EloStore) (w l q : String) (h : w ≠ l) :
    0 < K * (1 - expected_score (ratingOf s w q) (ratingOf s l q))
      ∧ K * (1 - expected_score (ratingOf s w q) (ratingOf s l q)) < 32
      ∧ ratingOf (update_elo s w l q) w q
          = ratingOf s w q + K * (1 - expected_score (ratingOf s w q) (ratingOf s l q))
      ∧ ratingOf (update_elo s w l q) l q
          = ratingOf s l q - K * (1 - expected_score (ratingOf s w q) (ratingOf s l q))
      ∧ ratingOf s w q < ratingOf (update_elo s w l q) w q
      ∧ ratingOf (update_elo s w l q) l q < ratingOf s l q := by
  have hpos := expected_score_pos (ratingOf s w q) (ratingOf s l q)
  have hlt := expected_score_lt_one (ratingOf s w q) (ratingOf s l q)
  have hw := update_elo_winner s w l q h
  have hl := update_elo_loser s w l q
  have hK : K = (32 : ℝ) := rfl
  have hdpos : 0 < K * (1 - expected_score (ratingOf s w q) (ratingOf s l q)) := by
    rw [hK]
    nlinarith
  have hdlt : K * (1 - expected_score (ratingOf s w q) (ratingOf s l q)) < 32 := by
    rw [hK]
    nlinarith
  refine ⟨hdpos, hdlt, hw, hl, ?_, ?_⟩
  · rw [hw]
    linarith
  · rw [hl]
    linarith

/-- C10 witness on the empty store: the transferred amount is strictly positive. -/
theorem C10_update_delta_witness :
    "A" ≠ "B"
      ∧ 0 < K * (1 - expected_score (ratingOf ([] : EloStore) "A" "clay")
          (ratingOf ([] : EloStore) "B" "clay")) :=
  ⟨by decide, (C10_update_delta [] "A" "B" "clay" (by decide)).1⟩

/-- C1 counterexample: in app1.py, get_elo on the empty store for an unseen pair
returns the baseline but does mutate the store, inserting the player key with an
empty per-surface map. -/
theorem C1_counterexample :
    (get_elo [] "A" "hard").1 = BASE_ELO ∧ (get_elo [] "A" "hard").2 ≠ [] := by
  constructor
  · rfl
  · simp [get_elo, lookupD, dictInsert]

/-- C1 amended: reading an unseen (competitor, partition) cell returns the baseline
1500.0 and changes no rating value; in app.py (get_elo_flat) the read is pure by
construction, while in app1.py the player key may be inserted with an empty
per-surface map — the key set can grow, but every rating cell reads the same
before and after. -/
theorem C1_get_elo_baseline (s : EloStore) (p q : String)
    (h : lookupD ((lookupD s p).getD []) q = none) :
    (get_elo s p q).1 = BASE_ELO
      ∧ (∀ c r, ratingOf (get_elo s p q).2 c r = ratingOf s c r)
      ∧ ∀ (s0 : FlatStore) (c : String), lookupD s0 c = none → get_elo_flat s0 c = BASE_ELO := by
  refine ⟨?_, fun c r => ratingOf_get_elo_snd s p q c r, fun s0 c h0 => ?_⟩
  · rw [get_elo_fst]
    unfold ratingOf
    rw [h]
    rfl
  · unfold get_elo_flat
    rw [h0]
    rfl

/-- C1 witness on the empty store. -/
theorem C1_get_elo_baseline_witness :
    lookupD ((lookupD ([] : EloStore) "A").getD []) "hard" = none
      ∧ ((get_elo [] "A" "hard").1 = BASE_ELO
        ∧ (∀ c r, ratingOf (get_elo [] "A" "hard").2 c r = ratingOf ([] : EloStore) c r)
        ∧ ∀ (s0 : FlatStore) (c : String), lookupD s0 c = none → get_elo_flat s0 c = BASE_ELO) :=
  ⟨rfl, C1_get_elo_baseline [] "A" "hard" rfl⟩

/-- C5: the update is not commutative with reordering: transposing two records on
the same two competitors and the same partition changes a final rating. -/
theorem C5_order_sensitivity :
    ∃ (r1 r2 : MatchRecord),
      r1.surface = r2.surface ∧ r1.winner = r2.loser ∧ r1.loser = r2.winner ∧
      ratingOf (replay [] [r1, r2]) r1.winner r1.surface
        ≠ ratingOf (replay [] [r2, r1]) r1.winner r1.surface := by
  refine ⟨⟨"A", "B", "clay"⟩, ⟨"B", "A", "clay"⟩, rfl, rfl, rfl, ?_⟩
  have h1 := update_elo_fresh "A" "B" "clay" (by decide)
  have h2 := update_elo_fresh "B" "A" "clay" (by decide)
  have hrep1 : replay [] [⟨"A", "B", "clay"⟩, ⟨"B", "A", "clay"⟩]
      = update_elo (update_elo [] "A" "B" "clay") "B" "A" "clay" := rfl
  have hrep2 : replay [] [⟨"B", "A", "clay"⟩, ⟨"A", "B", "clay"⟩]
      = update_elo (update_elo [] "B" "A" "clay") "A" "B" "clay" := rfl
  have hfin1 : ratingOf (update_elo (update_elo [] "A" "B" "clay") "B" "A" "clay") "A" "clay"
      = 1516 - K * (1 - expected_score 1484 1516) := by
    rw [update_elo_loser, h1.1, h1.2]
  have hfin2 : ratingOf (update_elo (update_elo [] "B" "A" "clay") "A" "B" "clay") "A" "clay"
      = 1484 + K * (1 - expected_score 1484 1516) := by
    rw [update_elo_winner _ _ _ _ (by decide : "A" ≠ "B"), h2.1, h2.2]
  have he : expected_score (1484 : ℝ) 1516 < 1 / 2 :=
    expected_score_lt_half _ _ (by norm_num)
  show ratingOf (replay [] [⟨"A", "B", "clay"⟩, ⟨"B", "A", "clay"⟩]) "A" "clay"
      ≠ ratingOf (replay [] [⟨"B", "A", "clay"⟩, ⟨"A", "B", "clay"⟩]) "A" "clay"
  rw [hrep1, hrep2, hfin1, hfin2]
  have hK : K = (32 : ℝ) := rfl
  rw [hK]
  intro hcontra
  linarith

/-- C7 counterexample: with identical competitors the script takes the warning
branch of the presentation layer; the core expected_score is a total function and
returns exactly one half at equal ratings instead of any error. -/
theorem C7_counterexample :
    (predictionUI [] "A" "A" "hard").1 = PredictionOutcome.warning
      ∧ expected_score 1500 1500 = 1 / 2 := by
  constructor
  · rfl
  · exact expected_score_self 1500

/-- C7 amended: the identical-competitors check lives in the presentation layer,
which shows a warning, computes no probability and leaves the store unchanged; the
core performs no validation: expected_score is total and yields exactly one half at
equal ratings. -/
theorem C7_identical_competitors (s : EloStore) (p q : String) (R : ℝ) :
    predictionUI s p p q = (PredictionOutcome.warning, s)
      ∧ expected_score R R = 1 / 2 := by
  constructor
  · unfold predictionUI
    simp
  · exact expected_score_self R

theorem rowComplete_lowerSurface (r : Row) : rowComplete (lowerSurface r) = rowComplete r := by
  simp [rowComplete, lowerSurface]

/-- C6 counterexample: in app1.py a live row missing the surface survives
normalization (dropna runs before the live rows are appended), and in app.py a
row missing the date survives (only the two player-name columns are checked). -/
theorem C6_counterexample :
    (∃ r ∈ load_data [] [⟨some "20240101", none, some "A", some "B"⟩], r.surface = none)
      ∧ ∃ r ∈ load_data_flat [⟨none, some "Hard", some "A", some "B"⟩],
          r.tourney_date = none := by
  constructor
  · exact ⟨⟨some "20240101", none, some "A", some "B"⟩, by decide, rfl⟩
  · exact ⟨⟨none, some "Hard", some "A", some "B"⟩, by decide, rfl⟩

/-- C6 amended: rows from the historical sources missing any of the four fields are
excluded by app1.py, but live rows bypass that filter, so every incomplete output
row originates in the live source; app.py checks only the two player-name fields,
so its output rows always carry both names but may miss date or surface. -/
theorem C6_normalizer_filter (hist live : List Row) (r : Row)
    (h : r ∈ load_data hist live) :
    (rowComplete r = true ∨ ∃ s ∈ live, r = lowerSurface s)
      ∧ ∀ (h2 : List Row) (r2 : Row), r2 ∈ load_data_flat h2 →
          r2.winner_name.isSome ∧ r2.loser_name.isSome := by
  constructor
  · unfold load_data at h
    obtain ⟨s, hs, hmap⟩ := List.mem_map.mp h
    rcases List.mem_append.mp hs with hhist | hlive
    · left
      have hc := List.of_mem_filter hhist
      rw [← hmap, rowComplete_lowerSurface]
      exact hc
    · right
      exact ⟨s, hlive, hmap.symm⟩
  · intro h2 r2 hr2
    unfold load_data_flat at hr2
    have hc := List.of_mem_filter hr2
    simpa using hc

/-- C6 witness: a complete historical row with no live source. -/
theorem C6_normalizer_filter_witness :
    (lowerSurface ⟨some "20240101", some "Hard", some "A", some "B"⟩
        ∈ load_data [⟨some "20240101", some "Hard", some "A", some "B"⟩] [])
      ∧ ((rowComplete (lowerSurface ⟨some "20240101", some "Hard", some "A", some "B"⟩) = true
          ∨ ∃ s ∈ ([] : List Row),
              lowerSurface ⟨some "20240101", some "Hard", some "A", some "B"⟩ = lowerSurface s)
        ∧ ∀ (h2 : List Row) (r2 : Row), r2 ∈ load_data_flat h2 →
            r2.winner_name.isSome ∧ r2.loser_name.isSome) :=
  ⟨by simp [load_data, rowComplete],
    C6_normalizer_filter [⟨some "20240101", some "Hard", some "A", some "B"⟩] []
      (lowerSurface ⟨some "20240101", some "Hard", some "A", some "B"⟩)
      (by simp [load_data, rowComplete])⟩

theorem mem_of_length_le_one {α : Type} {l : List α} (h : l.length ≤ 1) {a b : α}
    (ha : a ∈ l) (hb : b ∈ l) : a = b := by
  match l with
  | [] => cases ha
  | [x] =>
      simp only [List.mem_singleton] at ha hb
      rw [ha, hb]
  | x :: y :: rest => simp at h

/-- C8 counterexample: with two competitors in the store and limit 1 the
leaderboard keeps at most one entry, so it cannot contain one entry per competitor
present in the store. -/
theorem C8_counterexample :
    ¬ ∀ c ∈ (([("A", []), ("B", [])] : EloStore).map Prod.fst),
        ∃ x ∈ rank [("A", []), ("B", [])] "hard" 1, x.1 = c := by
  intro h
  obtain ⟨xa, hxa, hxa1⟩ := h "A" (by decide)
  obtain ⟨xb, hxb, hxb1⟩ := h "B" (by decide)
  have hlen : (rank [("A", []), ("B", [])] "hard" 1).length ≤ 1 := by
    unfold rank
    exact le_trans (le_of_eq (List.length_take _ _)) (min_le_left _ _)
  have heq : xa = xb := mem_of_length_le_one hlen hxa hxb
  rw [heq, hxb1] at hxa1
  exact absurd hxa1 (by decide)

/-- C8 amended: the leaderboard returns at most limit entries, sorted by descending
rating; the pre-truncation list top_players has exactly one entry per player key of
the store (reading the selected surface with baseline default, a pure read), and
whenever limit covers the whole store the leaderboard is a permutation of it. -/
theorem C8_rank (store : EloStore) (surface : String) (limit : Nat) :
    (rank store surface limit).length ≤ limit
      ∧ (rank store surface limit).Pairwise (fun a b => b.2 ≤ a.2)
      ∧ (store.length ≤ limit → (rank store surface limit).Perm (top_players store surface)) := by
  refine ⟨?_, ?_, ?_⟩
  · unfold rank
    exact le_trans (le_of_eq (List.length_take _ _)) (min_le_left _ _)
  · have hsorted : ((top_players store surface).mergeSort
        (fun a b => decide (b.2 ≤ a.2))).Pairwise (fun a b => decide (b.2 ≤ a.2)) := by
      apply List.sorted_mergeSort
      · intro a b c hab hbc
        have h1 : b.2 ≤ a.2 := of_decide_eq_true hab
        have h2 : c.2 ≤ b.2 := of_decide_eq_true hbc
        exact decide_eq_true (le_trans h2 h1)
      · intro a b
        rcases le_total b.2 a.2 with h | h
        · simp [decide_eq_true h]
        · simp [decide_eq_true h]
    unfold rank
    have htake := hsorted.sublist (List.take_sublist limit _)
    exact htake.imp (fun hab => of_decide_eq_true hab)
  · intro hle
    unfold rank
    have hlen : ((top_players store surface).mergeSort
        (fun a b => decide (b.2 ≤ a.2))).length ≤ limit := by
      rw [List.length_mergeSort]
      unfold top_players
      rw [List.length_map]
      exact hle
    rw [List.take_of_length_le hlen]
    exact List.mergeSort_perm _ _

/-- C8 witness: a one-player store with limit 5 is fully listed. -/
theorem C8_rank_witness :
    List.Perm (rank [("A", [])] "hard" 5) (top_players [("A", [])] "hard") :=
  (C8_rank [("A", [])] "hard" 5).2.2 (by decide)

end TennisElo
